import Mathlib

/-!
# SystemVariableManager — formal model

A shallow embedding of `main.go` from LewdLillyVT/SystemVariableManager: a
Windows GUI utility that applies declarative YAML lists of environment
variables to the user / system registry scopes, broadcasts a settings-change
message, and can export the current registry state back to YAML.

The registry is modelled as a map `String → Option String` per scope; the
platform calls that can fail (opening a key, SetStringValue, DeleteValue,
reading the file) are modelled by explicit failure flags / oracles, with the
deterministic special case that `DeleteValue` of an absent name reports a
not-exist error (the `os.IsNotExist` branch in the source).
-/

namespace SVM

/-- `Variable` (main.go:28-32): one declared entry, fields `name`, `value`,
`operation` ("set" to create/update, "delete" to remove). -/
structure Variable where
  Name : String
  Value : String
  Operation : String
deriving DecidableEq, Repr

/-- `Config` (main.go:34-38): the YAML configuration, a list of user-scope
variables and a list of system-scope variables. -/
structure Config where
  UserVariables : List Variable
  SystemVariables : List Variable
deriving DecidableEq, Repr

/-- One registry scope's contents: name → value (absent = `none`). -/
def Store : Type := String → Option String

/-- The empty registry scope. -/
def emptyStore : Store := fun _ => none

/-- `key.SetStringValue` effect on the map: write or overwrite `n`. -/
def setValue (σ : Store) (n v : String) : Store :=
  fun k => if k = n then some v else σ k

/-- `key.DeleteValue` effect on the map: remove `n`. -/
def deleteValue (σ : Store) (n : String) : Store :=
  fun k => if k = n then none else σ k

/-- Per-entry outcome, mirroring the distinct messages printed by the loop of
`applyVariables` (main.go:404-425). -/
inductive Outcome where
  | setOk
  | setFailed
  | deleted
  | alreadyAbsent
  | deleteFailed
  | unknownSkipped
deriving DecidableEq, Repr

/-- Whether an outcome is one of the two "Failed to ..." messages. -/
def Outcome.isFailure : Outcome → Bool
  | .setFailed => true
  | .deleteFailed => true
  | _ => false

/-- A call made against a registry key. -/
inductive StoreCall where
  | setCall (name value : String)
  | delCall (name : String)
deriving DecidableEq, Repr

/-- Failure oracle for the registry calls inside the loop: whether
`SetStringValue`, resp. `DeleteValue` on a *present* name, fails. -/
structure RegOracle where
  setFails : String → String → Bool
  delFails : String → Bool

/-- The oracle under which no spurious registry failure occurs. -/
def benignOracle : RegOracle := ⟨fun _ _ => false, fun _ => false⟩

/-- Body of the `for _, v := range variables` loop of `applyVariables`
(main.go:404-425) for one entry: `set` → `SetStringValue`; `delete` →
`DeleteValue`, with a not-exist error reported as "already deleted or did not
exist"; any other operation string → "Unknown operation ... Skipping." with no
registry call. Returns the new store, the recorded outcome, and the registry
calls made. -/
def applyStep (o : RegOracle) (σ : Store) (v : Variable) :
    Store × Outcome × List StoreCall :=
  if v.Operation = "set" then
    if o.setFails v.Name v.Value then (σ, .setFailed, [.setCall v.Name v.Value])
    else (setValue σ v.Name v.Value, .setOk, [.setCall v.Name v.Value])
  else if v.Operation = "delete" then
    if σ v.Name = none then (σ, .alreadyAbsent, [.delCall v.Name])
    else if o.delFails v.Name then (σ, .deleteFailed, [.delCall v.Name])
    else (deleteValue σ v.Name, .deleted, [.delCall v.Name])
  else (σ, .unknownSkipped, [])

/-- The full loop of `applyVariables` (main.go:404-425): every entry is
visited in order; outcomes are collected and never abort the loop. -/
def applyLoop (o : RegOracle) (σ : Store) : List Variable → Store × List Outcome × List StoreCall
  | [] => (σ, [], [])
  | v :: rest =>
    let s := applyStep o σ v
    let r := applyLoop o s.1 rest
    (r.1, s.2.1 :: r.2.1, s.2.2 ++ r.2.2)

/-- Registry hive (`registry.CURRENT_USER` / `registry.LOCAL_MACHINE`). -/
inductive Hive where
  | currentUser
  | localMachine
deriving DecidableEq, Repr

/-- Human-readable hive name (main.go:386-394). -/
def hiveNameOf : Hive → String
  | .currentUser => "HKEY_CURRENT_USER"
  | .localMachine => "HKEY_LOCAL_MACHINE"

/-- The error message returned when `registry.OpenKey` fails (main.go:397-400). -/
def openKeyErrorMsg (hive : Hive) (subkeyPath : String) : String :=
  "failed to open registry key " ++ hiveNameOf hive ++ "\\" ++ subkeyPath

/-- `applyVariables` (main.go:384-427): open the scope's key with write
access — on failure return an error naming hive and subkey and process no
entry — then run the loop. `openFails` models whether `registry.OpenKey`
fails for this scope. Per-entry failures are only recorded, never returned. -/
def applyVariables (openFails : Bool) (o : RegOracle) (hive : Hive)
    (subkeyPath : String) (vars : List Variable) (σ : Store) :
    Except String (Store × List Outcome × List StoreCall) :=
  if openFails then .error (openKeyErrorMsg hive subkeyPath)
  else .ok (applyLoop o σ vars)

/-- ASCII lowering of one character, modelling `strings.ToLower` on the
characters relevant here ('A'-'Z' map to 'a'-'z', everything else fixed). -/
def toLowerChar (c : Char) : Char :=
  if 65 ≤ c.toNat ∧ c.toNat ≤ 90 then Char.ofNat (c.toNat + 32) else c

/-- `strings.ToLower` on a whole string. -/
def lowerStr (s : String) : String := ⟨s.data.map toLowerChar⟩

/-- Windows path separator test (`os.IsPathSeparator`). -/
def isPathSep (c : Char) : Bool := c = '\\' ∨ c = '/'

/-- `filepath.Ext` scans the path backwards for a dot, stopping at a path
separator. `extRev` takes the *reversed* character list and returns the
reversed extension (dot included), or `[]` when there is none. -/
def extRev : List Char → List Char
  | [] => []
  | c :: rest =>
    if isPathSep c then []
    else if c = '.' then [c]
    else if extRev rest = [] then [] else c :: extRev rest

/-- `filepath.Ext` (Windows semantics). -/
def filepathExt (p : String) : String := ⟨(extRev p.data.reverse).reverse⟩

/-- `isValidYAMLFile` (main.go:297-301): lowercase the extension and compare
with ".yaml" / ".yml". -/
def isValidYAMLFile (filePath : String) : Bool :=
  let ext := lowerStr (filepathExt filePath)
  ext = ".yaml" ∨ ext = ".yml"

/-! ## Serializer

`saveConfigToFile` (main.go:517-530) delegates to `yaml.Marshal`, and import
delegates to `yaml.Unmarshal`. The yaml library is modelled here restricted
to this schema (two keys, each a block sequence of three-string-field maps,
rendered `user_variables` before `system_variables`, fields in order
`name`, `value`, `operation`): scalars that contain a quote, a backslash or a
newline, or are empty, render double-quoted with backslash escapes; other
scalars render plain. A document is the lines joined by newlines. -/

/-- Does a scalar need double quoting to survive a line-oriented round trip? -/
def needsQuote (s : String) : Bool :=
  s.data.isEmpty || s.data.any (fun c => c = '\n' || c = '"' || c = '\\')

/-- Escape one character for a double-quoted scalar. -/
def escChar (c : Char) : List Char :=
  if c = '"' ∨ c = '\\' then ['\\', c]
  else if c = '\n' then ['\\', 'n']
  else [c]

/-- Escape a whole scalar body. -/
def escape (l : List Char) : List Char := l.flatMap escChar

/-- Render one scalar: quoted with escapes when needed, plain otherwise. -/
def renderScalar (s : String) : List Char :=
  if needsQuote s then '"' :: (escape s.data ++ ['"']) else s.data

/-- Decode the body of a double-quoted scalar: the input is everything after
the opening quote; the closing quote must end the input. -/
def decodeQuoted : List Char → Option (List Char)
  | [] => none
  | c :: rest =>
    if c = '"' then if rest.isEmpty then some [] else none
    else if c = '\\' then
      match rest with
      | [] => none
      | d :: rest2 =>
        (decodeQuoted rest2).map (fun t => (if d = 'n' then '\n' else d) :: t)
    else (decodeQuoted rest).map (fun t => c :: t)

/-- Parse one rendered scalar (a full line remainder). -/
def parseScalar (l : List Char) : Option String :=
  match l with
  | [] => some ⟨[]⟩
  | c :: rest =>
    if c = '"' then (decodeQuoted rest).map (fun t => ⟨t⟩)
    else some ⟨c :: rest⟩

/-- The three lines a `Variable` renders to. -/
def renderVariable (v : Variable) : List (List Char) :=
  ["- name: ".data ++ renderScalar v.Name,
   "  value: ".data ++ renderScalar v.Value,
   "  operation: ".data ++ renderScalar v.Operation]

/-- All lines of a sequence of variables. -/
def renderVars (vs : List Variable) : List (List Char) :=
  vs.flatMap renderVariable

/-- Lines of one top-level section: `key: []` for an empty list, otherwise a
`key:` header followed by the items. -/
def renderSection (key : String) (vs : List Variable) : List (List Char) :=
  if vs.isEmpty then [key.data ++ ": []".data]
  else (key.data ++ [':']) :: renderVars vs

/-- All lines of a `Config` (`user_variables` first, then
`system_variables`). -/
def renderConfig (c : Config) : List (List Char) :=
  renderSection "user_variables" c.UserVariables ++
    renderSection "system_variables" c.SystemVariables

/-- `yaml.Marshal` on a `Config`: the rendered lines joined by newlines. -/
def yamlMarshal (c : Config) : List Char :=
  ['\n'].intercalate (renderConfig c)

/-- Does a line start an item (`- name: `)? -/
def isItemLine (l : List Char) : Bool := "- name: ".data.isPrefixOf l

/-- Parse the three lines of one item into a `Variable`. -/
def parseEntry (l1 l2 l3 : List Char) : Option Variable :=
  if isItemLine l1 && "  value: ".data.isPrefixOf l2 &&
      "  operation: ".data.isPrefixOf l3 then
    match parseScalar (l1.drop 8), parseScalar (l2.drop 9),
        parseScalar (l3.drop 13) with
    | some n, some v, some op => some ⟨n, v, op⟩
    | _, _, _ => none
  else none

/-- Parse items while lines start with `- name: `; return the items and the
remaining lines. -/
def parseItems : List (List Char) → Option (List Variable × List (List Char))
  | [] => some ([], [])
  | [l1] => if isItemLine l1 then none else some ([], [l1])
  | [l1, l2] => if isItemLine l1 then none else some ([], [l1, l2])
  | l1 :: l2 :: l3 :: rest =>
    if isItemLine l1 then
      match parseEntry l1 l2 l3, parseItems rest with
      | some v, some (vs, rem) => some (v :: vs, rem)
      | _, _ => none
    else some ([], l1 :: l2 :: l3 :: rest)

/-- Parse one top-level section headed by `key`. -/
def parseSection (key : String) :
    List (List Char) → Option (List Variable × List (List Char))
  | [] => none
  | l :: rest =>
    if l = key.data ++ ": []".data then some ([], rest)
    else if l = key.data ++ [':'] then parseItems rest
    else none

/-- `yaml.Unmarshal` into a `Config` for documents of this schema: split into
lines, read the `user_variables` section then the `system_variables`
section. -/
def yamlUnmarshal (bytes : List Char) : Option Config :=
  match parseSection "user_variables" (bytes.splitOn '\n') with
  | none => none
  | some (uvs, rest) =>
    match parseSection "system_variables" rest with
    | none => none
    | some (svs, rest2) => if rest2.isEmpty then some ⟨uvs, svs⟩ else none

/-! ## The apply pipeline (`applyEnvVars` closure, main.go:111-183) -/

/-- Registry subkey for the user scope (main.go:147). -/
def userSubkey : String := "Environment"

/-- Registry subkey for the system scope (main.go:157). -/
def sysSubkey : String := "SYSTEM\\CurrentControlSet\\Control\\Session Manager\\Environment"

/-- Environmental facts an apply run depends on: privilege level, whether the
file read / YAML parse / key opens / broadcast fail, the parsed configuration
when parsing succeeds, and the registry failure oracle. -/
structure Env where
  isAdmin : Bool
  readFails : Bool
  parseFails : Bool
  config : Config
  userOpenFails : Bool
  sysOpenFails : Bool
  oracle : RegOracle
  broadcastFails : Bool

/-- The abort-level errors an apply run can surface. -/
inductive RunError where
  | noFileSelected
  | unsupportedFileType
  | readError
  | formatError
  | storeAccess (msg : String)
  | notificationError
deriving DecidableEq, Repr

/-- Everything observable about one apply run: whether the file was read, the
final scope stores, the recorded per-entry outcomes and registry calls per
scope (`none` outcomes = that scope's loop never ran), whether the
"relaunch as admin" notice was shown, how many times `broadcastSettingChange`
was invoked, and the surfaced error. -/
structure RunResult where
  fileReadAttempted : Bool
  userStore : Store
  sysStore : Store
  userOutcomes : Option (List Outcome)
  sysOutcomes : Option (List Outcome)
  userCalls : List StoreCall
  sysCalls : List StoreCall
  sysSkippedNotice : Bool
  broadcastCount : Nat
  err : Option RunError

/-- `applyEnvVars` (main.go:111-183): empty-path and extension checks before
the file is read; read, then parse; apply user variables (abort on open
failure); if admin, apply system variables (abort on open failure), else if
`system_variables` is non-empty show the admin-required notice and return
WITHOUT broadcasting; finally broadcast `WM_SETTINGCHANGE` once. -/
def applyEnvVars (selectedFilePath : String) (env : Env) (σu σs : Store) :
    RunResult :=
  if selectedFilePath = "" then
    ⟨false, σu, σs, none, none, [], [], false, 0, some .noFileSelected⟩
  else if ¬ isValidYAMLFile selectedFilePath then
    ⟨false, σu, σs, none, none, [], [], false, 0, some .unsupportedFileType⟩
  else if env.readFails then
    ⟨true, σu, σs, none, none, [], [], false, 0, some .readError⟩
  else if env.parseFails then
    ⟨true, σu, σs, none, none, [], [], false, 0, some .formatError⟩
  else
    match applyVariables env.userOpenFails env.oracle .currentUser userSubkey
        env.config.UserVariables σu with
    | .error msg =>
      ⟨true, σu, σs, none, none, [], [], false, 0, some (.storeAccess msg)⟩
    | .ok (σu', uouts, ucalls) =>
      if env.isAdmin then
        match applyVariables env.sysOpenFails env.oracle .localMachine
            sysSubkey env.config.SystemVariables σs with
        | .error msg =>
          ⟨true, σu', σs, some uouts, none, ucalls, [], false, 0,
            some (.storeAccess msg)⟩
        | .ok (σs', souts, scalls) =>
          ⟨true, σu', σs', some uouts, some souts, ucalls, scalls, false, 1,
            if env.broadcastFails then some .notificationError else none⟩
      else if env.config.SystemVariables.length > 0 then
        ⟨true, σu', σs, some uouts, none, ucalls, [], true, 0, none⟩
      else
        ⟨true, σu', σs, some uouts, none, ucalls, [], false, 1,
          if env.broadcastFails then some .notificationError else none⟩

/-- Does a run get as far as the `broadcastSettingChange()` call? (Valid
non-empty path, file read and parse succeed, the user key opens, and — if
elevated — the system key opens, while if not elevated `system_variables`
must be empty, since otherwise the handler returns with the admin notice.) -/
def reachesNotification (selectedFilePath : String) (env : Env) : Bool :=
  !(selectedFilePath = "") && isValidYAMLFile selectedFilePath &&
    !env.readFails && !env.parseFails && !env.userOpenFails &&
    (if env.isAdmin then !env.sysOpenFails
     else env.config.SystemVariables.isEmpty)

/-- Is the "System variables were ignored. Relaunch as admin." notice shown?
(main.go:163-169.) -/
def showsAdminNotice (selectedFilePath : String) (env : Env) : Bool :=
  !(selectedFilePath = "") && isValidYAMLFile selectedFilePath &&
    !env.readFails && !env.parseFails && !env.userOpenFails &&
    !env.isAdmin && env.config.SystemVariables.length > 0

/-! ## Export (main.go:230-276, 455-515) -/

/-- Environmental facts the export flow depends on, per scope: whether the
key opens for read, whether `ReadValueNames` fails, the value names it
returns, and `GetStringValue` per name (`none` = that read fails and the name
is skipped with a warning). -/
structure ExportEnv where
  userOpenFails : Bool
  userNamesFail : Bool
  userNames : List String
  userGet : String → Option String
  sysOpenFails : Bool
  sysNamesFail : Bool
  sysNames : List String
  sysGet : String → Option String

/-- `readVariablesFromRegistry` (main.go:479-515): open the key for read,
list the value names, and read each one — a name whose value cannot be read
is skipped (`continue`); every variable is built with operation "set". -/
def readVariablesFromRegistry (hive : Hive) (subkeyPath : String)
    (openFails namesFail : Bool) (names : List String)
    (getVal : String → Option String) : Except String (List Variable) :=
  if openFails then
    .error ("failed to open registry key " ++ hiveNameOf hive ++ "\\" ++
      subkeyPath ++ " for reading")
  else if namesFail then
    .error "failed to read value names from registry key"
  else
    .ok (names.filterMap (fun n => (getVal n).map (fun v => ⟨n, v, "set"⟩)))

/-- `exportEnvironmentVariables` (main.go:455-476): always read the user
scope; read the system scope only when running as administrator. -/
def exportEnvironmentVariables (isAdmin : Bool) (e : ExportEnv) :
    Except String Config :=
  match readVariablesFromRegistry .currentUser userSubkey e.userOpenFails
      e.userNamesFail e.userNames e.userGet with
  | .error msg => .error ("failed to read user environment variables: " ++ msg)
  | .ok uvs =>
    if isAdmin then
      match readVariablesFromRegistry .localMachine sysSubkey e.sysOpenFails
          e.sysNamesFail e.sysNames e.sysGet with
      | .error msg =>
        .error ("failed to read system environment variables: " ++ msg)
      | .ok svs => .ok ⟨uvs, svs⟩
    else .ok ⟨uvs, []⟩

/-- `strings.HasSuffix`. -/
def strHasSuffix (s suffix : String) : Bool := suffix.data.isSuffixOf s.data

/-- The save-path fixup in the export button handler (main.go:261-264): if
the lowercased chosen path ends in neither ".yaml" nor ".yml", append
".yaml". -/
def fixupSavePath (savePath : String) : String :=
  if !strHasSuffix (lowerStr savePath) ".yaml" &&
      !strHasSuffix (lowerStr savePath) ".yml" then
    savePath ++ ".yaml"
  else savePath

/-! ## Helper lemmas about the apply loop -/

/-- One outcome is recorded per entry: the loop visits every entry. -/
theorem applyLoop_length (o : RegOracle) (σ : Store) (vs : List Variable) :
    (applyLoop o σ vs).2.1.length = vs.length := by
  induction vs generalizing σ with
  | nil => rfl
  | cons v rest ih => simp [applyLoop, ih]

/-- The effect the last entry of a list touching key `k` prescribes for `k`:
`some (some v)` for a set, `some none` for a delete, `none` when no entry
touches `k`. -/
def lastOp : List Variable → String → Option (Option String)
  | [], _ => none
  | v :: rest, k =>
    match lastOp rest k with
    | some r => some r
    | none =>
      if v.Operation = "set" ∧ v.Name = k then some (some v.Value)
      else if v.Operation = "delete" ∧ v.Name = k then some none
      else none

/-- Under the benign oracle one step behaves as a pure map update. -/
theorem applyStep_benign_store (σ : Store) (v : Variable) (k : String) :
    (applyStep benignOracle σ v).1 k =
      (lastOp [v] k).getD (σ k) := by
  simp only [lastOp]
  by_cases hset : v.Operation = "set"
  · by_cases hk : v.Name = k
    · subst hk
      simp [applyStep, benignOracle, hset, setValue]
    · have hk' : ¬ k = v.Name := fun h => hk h.symm
      simp [applyStep, benignOracle, hset, hk, hk', setValue]
  · by_cases hdel : v.Operation = "delete"
    · by_cases hk : v.Name = k
      · subst hk
        by_cases habs : σ v.Name = none <;>
          simp [applyStep, benignOracle, hset, hdel, habs, deleteValue]
      · have hk' : ¬ k = v.Name := fun h => hk h.symm
        by_cases habs : σ v.Name = none <;>
          simp [applyStep, benignOracle, hset, hdel, hk, hk', habs, deleteValue]
    · simp [applyStep, hset, hdel]

/-- `lastOp` over a cons, phrased through the singleton case. -/
theorem lastOp_cons (v : Variable) (rest : List Variable) (k : String) :
    lastOp (v :: rest) k =
      match lastOp rest k with
      | some r => some r
      | none => lastOp [v] k := by
  cases h : lastOp rest k <;> simp [lastOp, h]

/-- Under the benign oracle the loop's final store is the last touching
entry's effect, falling back to the initial store. -/
theorem applyLoop_benign_store (vs : List Variable) (σ : Store) (k : String) :
    (applyLoop benignOracle σ vs).1 k = (lastOp vs k).getD (σ k) := by
  induction vs generalizing σ with
  | nil => rfl
  | cons v rest ih =>
    show (applyLoop benignOracle (applyStep benignOracle σ v).1 rest).1 k = _
    rw [ih, lastOp_cons]
    cases h : lastOp rest k with
    | some r => simp [h]
    | none => simp [h, applyStep_benign_store]

/-- Under the benign oracle, applying the same list twice gives the same
store as applying it once. -/
theorem applyLoop_benign_idem (vs : List Variable) (σ : Store) :
    (applyLoop benignOracle (applyLoop benignOracle σ vs).1 vs).1 =
      (applyLoop benignOracle σ vs).1 := by
  funext k
  rw [applyLoop_benign_store, applyLoop_benign_store]
  cases h : lastOp vs k <;> simp [h]

/-- Under the benign oracle no entry is recorded as failed. -/
theorem applyLoop_benign_noFailure (vs : List Variable) (σ : Store) :
    (applyLoop benignOracle σ vs).2.1.countP (fun out => out.isFailure) = 0 := by
  induction vs generalizing σ with
  | nil => rfl
  | cons v rest ih =>
    show ((applyStep benignOracle σ v).2.1 ::
        (applyLoop benignOracle (applyStep benignOracle σ v).1 rest).2.1).countP _ = 0
    rw [List.countP_cons]
    have hstep : (applyStep benignOracle σ v).2.1.isFailure = false := by
      unfold applyStep benignOracle
      by_cases hset : v.Operation = "set"
      · simp [hset, Outcome.isFailure]
      · by_cases hdel : v.Operation = "delete"
        · by_cases habs : σ v.Name = none <;> simp [hset, hdel, habs, Outcome.isFailure]
        · simp [hset, hdel, Outcome.isFailure]
    simp [hstep, ih]

/-- Normal form of an apply run once the path, read, parse and user-key-open
stages all pass. -/
theorem applyEnvVars_normal (path : String) (env : Env) (σu σs : Store)
    (hpath : ¬ path = "") (hvalid : isValidYAMLFile path = true)
    (hr : env.readFails = false) (hp : env.parseFails = false)
    (hu : env.userOpenFails = false) :
    applyEnvVars path env σu σs =
      (let u := applyLoop env.oracle σu env.config.UserVariables
      if env.isAdmin then
        if env.sysOpenFails then
          ⟨true, u.1, σs, some u.2.1, none, u.2.2, [], false, 0,
            some (.storeAccess (openKeyErrorMsg .localMachine sysSubkey))⟩
        else
          let s := applyLoop env.oracle σs env.config.SystemVariables
          ⟨true, u.1, s.1, some u.2.1, some s.2.1, u.2.2, s.2.2, false, 1,
            if env.broadcastFails then some .notificationError else none⟩
      else if env.config.SystemVariables.length > 0 then
        ⟨true, u.1, σs, some u.2.1, none, u.2.2, [], true, 0, none⟩
      else
        ⟨true, u.1, σs, some u.2.1, none, u.2.2, [], false, 1,
          if env.broadcastFails then some .notificationError else none⟩) := by
  unfold applyEnvVars applyVariables
  simp only [hpath, hvalid, hr, hp, hu, if_false, if_true, Bool.false_eq_true,
    not_true_eq_false, not_false_eq_true]
  cases hadmin : env.isAdmin with
  | false => simp
  | true =>
    cases hso : env.sysOpenFails with
    | false => simp
    | true => simp

/-! ## Claims C1, C2, C3, C7, C8 -/

/-- C1 (counterexample): with privilege not elevated and `system_variables`
the only non-empty list, the run processes the user scope (empty outcome list
recorded) but the broadcast is NOT invoked — the handler returns at the
admin-required notice (main.go:163-169) before `broadcastSettingChange()`. -/
theorem claim_C1_counterexample :
    (applyEnvVars "c.yaml"
      ⟨false, false, false, ⟨[], [⟨"A", "1", "set"⟩]⟩, false, false,
        benignOracle, false⟩ emptyStore emptyStore).broadcastCount = 0 ∧
    (applyEnvVars "c.yaml"
      ⟨false, false, false, ⟨[], [⟨"A", "1", "set"⟩]⟩, false, false,
        benignOracle, false⟩ emptyStore emptyStore).userOutcomes = some [] ∧
    (applyEnvVars "c.yaml"
      ⟨false, false, false, ⟨[], [⟨"A", "1", "set"⟩]⟩, false, false,
        benignOracle, false⟩ emptyStore emptyStore).sysSkippedNotice = true := by
  refine ⟨rfl, rfl, rfl⟩

/-- C1 (amended): if privilegeState is not elevated and `system_variables` is
non-empty, the run that got past the user scope shows the admin-required
notice and does NOT invoke the Notifier; the Notifier is invoked exactly once
in precisely those runs that reach the notification step. -/
theorem claim_C1_amended (path : String) (env : Env) (σu σs : Store) :
    (applyEnvVars path env σu σs).broadcastCount =
      (if reachesNotification path env then 1 else 0) ∧
    (applyEnvVars path env σu σs).sysSkippedNotice =
      showsAdminNotice path env := by
  by_cases hpath : path = ""
  · simp [applyEnvVars, reachesNotification, showsAdminNotice, hpath]
  · cases hvalid : isValidYAMLFile path with
    | false =>
      simp [applyEnvVars, reachesNotification, showsAdminNotice, hpath, hvalid]
    | true =>
    cases hr : env.readFails with
    | true =>
      simp [applyEnvVars, reachesNotification, showsAdminNotice, hpath, hvalid, hr]
    | false =>
    cases hp : env.parseFails with
    | true =>
      simp [applyEnvVars, reachesNotification, showsAdminNotice, hpath, hvalid, hr, hp]
    | false =>
    cases hu : env.userOpenFails with
    | true =>
      simp [applyEnvVars, applyVariables, reachesNotification, showsAdminNotice,
        hpath, hvalid, hr, hp, hu]
    | false =>
    rw [applyEnvVars_normal path env σu σs hpath hvalid hr hp hu]
    cases hadmin : env.isAdmin with
    | true =>
      cases hso : env.sysOpenFails with
      | false =>
        simp [reachesNotification, showsAdminNotice, hpath, hvalid, hr, hp, hu,
          hadmin, hso]
      | true =>
        simp [reachesNotification, showsAdminNotice, hpath, hvalid, hr, hp, hu,
          hadmin, hso]
    | false =>
      cases hsys : env.config.SystemVariables with
      | nil =>
        simp [reachesNotification, showsAdminNotice, hpath, hvalid, hr, hp, hu,
          hadmin, hsys]
      | cons a l =>
        simp [reachesNotification, showsAdminNotice, hpath, hvalid, hr, hp, hu,
          hadmin, hsys]

/-- C2: with a non-empty `system_variables` list and no elevation, an apply
run makes zero registry calls against the system scope, leaves the system
store untouched, reports the system entries as skipped via the single
admin-required notice (not per-item outcomes), and still applies every
`user_variables` entry to the user scope. -/
theorem claim_C2 (path : String) (env : Env) (σu σs : Store)
    (hadmin : env.isAdmin = false) (hsys : env.config.SystemVariables ≠ [])
    (hpath : ¬ path = "") (hvalid : isValidYAMLFile path = true)
    (hr : env.readFails = false) (hp : env.parseFails = false)
    (hu : env.userOpenFails = false) :
    (applyEnvVars path env σu σs).sysCalls = [] ∧
    (applyEnvVars path env σu σs).sysStore = σs ∧
    (applyEnvVars path env σu σs).sysOutcomes = none ∧
    (applyEnvVars path env σu σs).sysSkippedNotice = true ∧
    (applyEnvVars path env σu σs).userOutcomes =
      some (applyLoop env.oracle σu env.config.UserVariables).2.1 ∧
    (applyEnvVars path env σu σs).userStore =
      (applyLoop env.oracle σu env.config.UserVariables).1 ∧
    ((applyEnvVars path env σu σs).userOutcomes.getD []).length =
      env.config.UserVariables.length := by
  rw [applyEnvVars_normal path env σu σs hpath hvalid hr hp hu]
  have hlen : env.config.SystemVariables.length > 0 :=
    List.length_pos.mpr hsys
  simp [hadmin, hlen, applyLoop_length]

/-- C2 witness: a concrete non-elevated run with one user entry and one
system entry makes no system-scope registry call and applies the user
entry. -/
theorem claim_C2_witness :
    (applyEnvVars "u.yaml"
      ⟨false, false, false, ⟨[⟨"FOO", "1", "set"⟩], [⟨"SYS", "2", "set"⟩]⟩,
        false, false, benignOracle, false⟩ emptyStore emptyStore).sysCalls = [] ∧
    (applyEnvVars "u.yaml"
      ⟨false, false, false, ⟨[⟨"FOO", "1", "set"⟩], [⟨"SYS", "2", "set"⟩]⟩,
        false, false, benignOracle, false⟩ emptyStore
      emptyStore).userOutcomes = some [.setOk] := by
  have h := claim_C2 "u.yaml"
    ⟨false, false, false, ⟨[⟨"FOO", "1", "set"⟩], [⟨"SYS", "2", "set"⟩]⟩,
      false, false, benignOracle, false⟩ emptyStore emptyStore rfl
    (by decide) (by decide) (by decide) rfl rfl rfl
  exact ⟨h.1, h.2.2.2.2.1.trans rfl⟩

/-- C3: a `delete` of an absent name is recorded as "already absent", leaves
the store untouched and is never a failure; and (with no spurious registry
failures) applying the same configuration twice in a row yields the same
final stores after both runs, the second run reporting zero failures. -/
theorem claim_C3 :
    (∀ (o : RegOracle) (σ : Store) (v : Variable),
      v.Operation = "delete" → σ v.Name = none →
      applyStep o σ v = (σ, .alreadyAbsent, [.delCall v.Name])) ∧
    (∀ (path : String) (env : Env) (σu σs : Store),
      env.oracle = benignOracle → ¬ path = "" →
      isValidYAMLFile path = true → env.readFails = false →
      env.parseFails = false → env.userOpenFails = false →
      env.sysOpenFails = false →
      (applyEnvVars path env (applyEnvVars path env σu σs).userStore
          (applyEnvVars path env σu σs).sysStore).userStore =
        (applyEnvVars path env σu σs).userStore ∧
      (applyEnvVars path env (applyEnvVars path env σu σs).userStore
          (applyEnvVars path env σu σs).sysStore).sysStore =
        (applyEnvVars path env σu σs).sysStore ∧
      ((applyEnvVars path env (applyEnvVars path env σu σs).userStore
          (applyEnvVars path env σu σs).sysStore).userOutcomes.getD
          []).countP (fun out => out.isFailure) = 0 ∧
      ((applyEnvVars path env (applyEnvVars path env σu σs).userStore
          (applyEnvVars path env σu σs).sysStore).sysOutcomes.getD
          []).countP (fun out => out.isFailure) = 0) := by
  constructor
  · intro o σ v hdel habs
    simp [applyStep, hdel, habs]
  · intro path env σu σs ho hpath hvalid hr hp hu hso
    rw [applyEnvVars_normal path env σu σs hpath hvalid hr hp hu]
    cases hadmin : env.isAdmin with
    | true =>
      simp only [hadmin, hso, if_true, if_false, Bool.false_eq_true]
      rw [applyEnvVars_normal path env _ _ hpath hvalid hr hp hu]
      simp [hadmin, hso, ho, applyLoop_benign_idem, applyLoop_benign_noFailure]
    | false =>
      simp only [hadmin, Bool.false_eq_true, if_false]
      cases hsys : env.config.SystemVariables with
      | nil =>
        simp only [hsys, List.length_nil, gt_iff_lt, Nat.lt_irrefl, if_false]
        rw [applyEnvVars_normal path env _ _ hpath hvalid hr hp hu]
        simp [hadmin, hsys, ho, applyLoop_benign_idem, applyLoop_benign_noFailure]
      | cons a l =>
        simp only [hsys, List.length_cons, gt_iff_lt, Nat.succ_pos, if_true]
        rw [applyEnvVars_normal path env _ _ hpath hvalid hr hp hu]
        simp [hadmin, hsys, ho, applyLoop_benign_idem, applyLoop_benign_noFailure]

/-- C3 witness: concrete run — deleting an absent name reports already
absent; applying a one-set-one-delete configuration twice leaves the stores
of the first run unchanged and the second run reports zero failures. -/
theorem claim_C3_witness :
    (applyStep benignOracle emptyStore ⟨"GONE", "", "delete"⟩ =
      (emptyStore, .alreadyAbsent, [.delCall "GONE"])) ∧
    ((applyEnvVars "a.yml"
        ⟨true, false, false, ⟨[⟨"FOO", "1", "set"⟩], [⟨"GONE", "", "delete"⟩]⟩,
          false, false, benignOracle, false⟩
        (applyEnvVars "a.yml"
          ⟨true, false, false, ⟨[⟨"FOO", "1", "set"⟩], [⟨"GONE", "", "delete"⟩]⟩,
            false, false, benignOracle, false⟩ emptyStore emptyStore).userStore
        (applyEnvVars "a.yml"
          ⟨true, false, false, ⟨[⟨"FOO", "1", "set"⟩], [⟨"GONE", "", "delete"⟩]⟩,
            false, false, benignOracle, false⟩ emptyStore
            emptyStore).sysStore).userStore =
      (applyEnvVars "a.yml"
        ⟨true, false, false, ⟨[⟨"FOO", "1", "set"⟩], [⟨"GONE", "", "delete"⟩]⟩,
          false, false, benignOracle, false⟩ emptyStore
          emptyStore).userStore) := by
  refine ⟨claim_C3.1 benignOracle emptyStore ⟨"GONE", "", "delete"⟩ rfl rfl,
    (claim_C3.2 "a.yml"
      ⟨true, false, false, ⟨[⟨"FOO", "1", "set"⟩], [⟨"GONE", "", "delete"⟩]⟩,
        false, false, benignOracle, false⟩ emptyStore emptyStore rfl
      (by decide) (by decide) rfl rfl rfl rfl).1⟩

/-- C7: within one scope's list every entry is visited and gets exactly one
recorded outcome, and the loop on `v :: rest` always continues into `rest`
from the post-state of `v` — no outcome (including a failure) halts it. -/
theorem claim_C7 (o : RegOracle) (σ : Store) (vs : List Variable) :
    (applyLoop o σ vs).2.1.length = vs.length ∧
    (∀ (v : Variable) (rest : List Variable),
      applyLoop o σ (v :: rest) =
        ((applyLoop o (applyStep o σ v).1 rest).1,
         (applyStep o σ v).2.1 :: (applyLoop o (applyStep o σ v).1 rest).2.1,
         (applyStep o σ v).2.2 ++ (applyLoop o (applyStep o σ v).1 rest).2.2)) :=
  ⟨applyLoop_length o σ vs, fun _ _ => rfl⟩

/-- C8: a scope whose registry key cannot be opened for write aborts the run
with a store-access error naming the hive and subkey — no entry of that scope
is processed, no later scope runs, and the broadcast is not invoked — while
per-entry soft outcomes (under any failure oracle) never prevent the run from
reaching the broadcast. -/
theorem claim_C8 :
    (∀ (path : String) (env : Env) (σu σs : Store),
      ¬ path = "" → isValidYAMLFile path = true → env.readFails = false →
      env.parseFails = false → env.userOpenFails = true →
      (applyEnvVars path env σu σs).err =
        some (.storeAccess (openKeyErrorMsg .currentUser userSubkey)) ∧
      (applyEnvVars path env σu σs).userOutcomes = none ∧
      (applyEnvVars path env σu σs).userCalls = [] ∧
      (applyEnvVars path env σu σs).userStore = σu ∧
      (applyEnvVars path env σu σs).sysOutcomes = none ∧
      (applyEnvVars path env σu σs).sysCalls = [] ∧
      (applyEnvVars path env σu σs).sysStore = σs ∧
      (applyEnvVars path env σu σs).broadcastCount = 0) ∧
    (∀ (path : String) (env : Env) (σu σs : Store),
      ¬ path = "" → isValidYAMLFile path = true → env.readFails = false →
      env.parseFails = false → env.userOpenFails = false →
      env.isAdmin = true → env.sysOpenFails = true →
      (applyEnvVars path env σu σs).err =
        some (.storeAccess (openKeyErrorMsg .localMachine sysSubkey)) ∧
      (applyEnvVars path env σu σs).sysOutcomes = none ∧
      (applyEnvVars path env σu σs).sysCalls = [] ∧
      (applyEnvVars path env σu σs).sysStore = σs ∧
      (applyEnvVars path env σu σs).broadcastCount = 0) ∧
    (∀ (path : String) (env : Env) (σu σs : Store),
      ¬ path = "" → isValidYAMLFile path = true → env.readFails = false →
      env.parseFails = false → env.userOpenFails = false →
      (env.isAdmin = true → env.sysOpenFails = false) →
      (env.isAdmin = false → env.config.SystemVariables = []) →
      (applyEnvVars path env σu σs).broadcastCount = 1 ∧
      ((applyEnvVars path env σu σs).err = none ∨
        (applyEnvVars path env σu σs).err = some .notificationError)) := by
  refine ⟨?_, ?_, ?_⟩
  · intro path env σu σs hpath hvalid hr hp hu
    simp [applyEnvVars, applyVariables, hpath, hvalid, hr, hp, hu]
  · intro path env σu σs hpath hvalid hr hp hu hadmin hso
    rw [applyEnvVars_normal path env σu σs hpath hvalid hr hp hu]
    simp [hadmin, hso]
  · intro path env σu σs hpath hvalid hr hp hu hso hsys
    rw [applyEnvVars_normal path env σu σs hpath hvalid hr hp hu]
    cases hadmin : env.isAdmin with
    | true =>
      cases hbf : env.broadcastFails <;>
        simp [hadmin, hso hadmin, hbf]
    | false =>
      cases hbf : env.broadcastFails <;>
        simp [hadmin, hsys hadmin, hbf]

/-- C8 witness: a concrete run whose user key cannot be opened surfaces the
store-access error naming HKEY_CURRENT_USER\Environment and broadcasts
nothing; a concrete run with a failing set entry still broadcasts once. -/
theorem claim_C8_witness :
    ((applyEnvVars "a.yaml"
        ⟨false, false, false, ⟨[⟨"FOO", "1", "set"⟩], []⟩, true, false,
          benignOracle, false⟩ emptyStore emptyStore).err =
      some (.storeAccess "failed to open registry key HKEY_CURRENT_USER\\Environment") ∧
    (applyEnvVars "a.yaml"
        ⟨false, false, false, ⟨[⟨"FOO", "1", "set"⟩], []⟩, true, false,
          benignOracle, false⟩ emptyStore emptyStore).broadcastCount = 0) ∧
    (applyEnvVars "a.yaml"
        ⟨false, false, false, ⟨[⟨"FOO", "1", "set"⟩], []⟩, false, false,
          ⟨fun _ _ => true, fun _ => false⟩, false⟩ emptyStore
        emptyStore).broadcastCount = 1 := by
  refine ⟨⟨?_, ?_⟩, ?_⟩
  · exact (claim_C8.1 "a.yaml"
      ⟨false, false, false, ⟨[⟨"FOO", "1", "set"⟩], []⟩, true, false,
        benignOracle, false⟩ emptyStore emptyStore (by decide) (by decide)
      rfl rfl rfl).1
  · exact (claim_C8.1 "a.yaml"
      ⟨false, false, false, ⟨[⟨"FOO", "1", "set"⟩], []⟩, true, false,
        benignOracle, false⟩ emptyStore emptyStore (by decide) (by decide)
      rfl rfl rfl).2.2.2.2.2.2.2
  · exact (claim_C8.2.2 "a.yaml"
      ⟨false, false, false, ⟨[⟨"FOO", "1", "set"⟩], []⟩, false, false,
        ⟨fun _ _ => true, fun _ => false⟩, false⟩ emptyStore emptyStore
      (by decide) (by decide) rfl rfl rfl (by intro h; exact rfl)
      (by intro h; exact rfl)).1

/-! ## Serializer round-trip lemmas -/

/-- Escaping never emits a newline. -/
theorem escape_no_newline (l : List Char) : '\n' ∉ escape l := by
  induction l with
  | nil => simp [escape]
  | cons c t ih =>
    intro hmem
    simp only [escape, List.flatMap_cons] at hmem
    rcases List.mem_append.mp hmem with h | h
    · by_cases hc : c = '"' ∨ c = '\\'
      · rcases hc with hc | hc <;> subst hc <;> revert h <;> decide
      · by_cases hn : c = '\n'
        · subst hn
          revert h
          decide
        · simp [escChar, hc, hn] at h
          exact hn h.symm
    · exact ih h

/-- A rendered scalar never contains a newline. -/
theorem renderScalar_no_newline (s : String) : '\n' ∉ renderScalar s := by
  unfold renderScalar
  by_cases hq : needsQuote s = true
  · intro hmem
    simp only [hq, if_true, List.mem_cons, List.mem_append,
      List.mem_singleton] at hmem
    rcases hmem with h | h | h
    · exact absurd h (by decide)
    · exact escape_no_newline s.data h
    · exact absurd h (by decide)
  · intro hmem
    simp only [hq, if_false] at hmem
    apply hq
    unfold needsQuote
    refine Bool.or_eq_true_iff.mpr (Or.inr ?_)
    refine List.any_eq_true.mpr ⟨'\n', hmem, by decide⟩

/-- Each of the three lines a variable renders to is newline-free. -/
theorem renderVariable_no_newline (v : Variable) :
    ∀ l ∈ renderVariable v, '\n' ∉ l := by
  intro l hl
  simp only [renderVariable, List.mem_cons, List.not_mem_nil, or_false] at hl
  rcases hl with hl | hl | hl <;> subst hl <;> intro hmem <;>
    rcases List.mem_append.mp hmem with hm | hm
  · exact absurd hm (by decide)
  · exact renderScalar_no_newline _ hm
  · exact absurd hm (by decide)
  · exact renderScalar_no_newline _ hm
  · exact absurd hm (by decide)
  · exact renderScalar_no_newline _ hm

/-- Every line of a rendered section is newline-free, provided the key is. -/
theorem renderSection_no_newline (key : String) (vs : List Variable)
    (hkey : '\n' ∉ key.data) :
    ∀ l ∈ renderSection key vs, '\n' ∉ l := by
  intro l hl
  unfold renderSection at hl
  by_cases hvs : vs.isEmpty = true
  · rw [if_pos hvs] at hl
    have hl2 := List.mem_singleton.mp hl
    subst hl2
    intro hmem
    rcases List.mem_append.mp hmem with h | h
    · exact hkey h
    · exact absurd h (by decide)
  · rw [if_neg hvs] at hl
    rcases List.mem_cons.mp hl with hl | hl
    · subst hl
      intro hmem
      rcases List.mem_append.mp hmem with h | h
      · exact hkey h
      · exact absurd h (by decide)
    · unfold renderVars at hl
      rcases List.mem_flatMap.mp hl with ⟨v, _, hlv⟩
      exact renderVariable_no_newline v l hlv

/-- Every line of a rendered configuration is newline-free. -/
theorem renderConfig_no_newline (c : Config) :
    ∀ l ∈ renderConfig c, '\n' ∉ l := by
  intro l hl
  unfold renderConfig at hl
  rcases List.mem_append.mp hl with h | h
  · exact renderSection_no_newline _ _ (by decide) l h
  · exact renderSection_no_newline _ _ (by decide) l h

/-- A rendered configuration has at least one line. -/
theorem renderConfig_ne_nil (c : Config) : renderConfig c ≠ [] := by
  unfold renderConfig renderSection
  by_cases hvs : c.UserVariables.isEmpty = true <;> simp [hvs]

/-- Splitting the marshalled document on newlines recovers the lines. -/
theorem splitOn_yamlMarshal (c : Config) :
    (yamlMarshal c).splitOn '\n' = renderConfig c := by
  unfold yamlMarshal
  exact List.splitOn_intercalate (renderConfig c) '\n'
    (renderConfig_no_newline c) (renderConfig_ne_nil c)

/-- Decoding inverts escaping once the closing quote is appended. -/
theorem decodeQuoted_escape (l : List Char) :
    decodeQuoted (escape l ++ ['"']) = some l := by
  induction l with
  | nil => rfl
  | cons c t ih =>
    show decodeQuoted ((escChar c ++ escape t) ++ ['"']) = _
    rw [List.append_assoc]
    by_cases hc : c = '"' ∨ c = '\\'
    · rcases hc with hc | hc <;> subst hc
      · have he : escChar '"' = ['\\', '"'] := by decide
        rw [he]
        simp [decodeQuoted, ih]
      · have he : escChar '\\' = ['\\', '\\'] := by decide
        rw [he]
        simp [decodeQuoted, ih]
    · by_cases hn : c = '\n'
      · subst hn
        have he : escChar '\n' = ['\\', 'n'] := by decide
        rw [he]
        simp [decodeQuoted, ih]
      · have hq : ¬ c = '"' := fun h => hc (Or.inl h)
        have hb : ¬ c = '\\' := fun h => hc (Or.inr h)
        have he : escChar c = [c] := by simp [escChar, hc, hn]
        rw [he]
        rw [decodeQuoted.eq_def]
        simp [hq, hb, ih]

/-- Parsing inverts rendering for one scalar. -/
theorem parseScalar_renderScalar (s : String) :
    parseScalar (renderScalar s) = some s := by
  unfold renderScalar
  by_cases hq : needsQuote s = true
  · rw [if_pos hq]
    show parseScalar ('"' :: (escape s.data ++ ['"'])) = some s
    rw [parseScalar, if_pos rfl, decodeQuoted_escape]
    rfl
  · rw [if_neg hq]
    unfold needsQuote at hq
    simp only [Bool.or_eq_true, not_or] at hq
    cases hd : s.data with
    | nil =>
      exact absurd (show s.data.isEmpty = true by rw [hd]; rfl) hq.1
    | cons c rest =>
      have hcq : ¬ c = '"' := by
        intro h
        apply hq.2
        refine List.any_eq_true.mpr ⟨c, by simp [hd], ?_⟩
        subst h
        decide
      rw [parseScalar, if_neg hcq, ← hd]

/-- A list is a prefix of itself followed by anything (`isPrefixOf` form). -/
theorem isPrefixOf_append_self (l t : List Char) :
    l.isPrefixOf (l ++ t) = true := by
  induction l with
  | nil => simp [List.isPrefixOf]
  | cons c cs ih => simp [List.isPrefixOf, ih]

/-- `headNotItem ls`: the first line of `ls`, when present, does not start an
item. -/
def headNotItem : List (List Char) → Prop
  | [] => True
  | l :: _ => isItemLine l = false

/-- `parseItems` stops immediately on a list whose head is not an item. -/
theorem parseItems_noItem (ls : List (List Char)) (h : headNotItem ls) :
    parseItems ls = some ([], ls) := by
  match ls, h with
  | [], _ => rfl
  | [l1], h =>
    have hh : isItemLine l1 = false := h
    simp [parseItems, hh]
  | [l1, l2], h =>
    have hh : isItemLine l1 = false := h
    simp [parseItems, hh]
  | l1 :: l2 :: l3 :: r, h =>
    have hh : isItemLine l1 = false := h
    simp [parseItems, hh]

/-- Parsing inverts rendering for one item's three lines. -/
theorem parseEntry_render (v : Variable) :
    parseEntry ("- name: ".data ++ renderScalar v.Name)
      ("  value: ".data ++ renderScalar v.Value)
      ("  operation: ".data ++ renderScalar v.Operation) = some v := by
  have h1 : isItemLine ("- name: ".data ++ renderScalar v.Name) = true :=
    isPrefixOf_append_self _ _
  have h2 : "  value: ".data.isPrefixOf
      ("  value: ".data ++ renderScalar v.Value) = true :=
    isPrefixOf_append_self _ _
  have h3 : "  operation: ".data.isPrefixOf
      ("  operation: ".data ++ renderScalar v.Operation) = true :=
    isPrefixOf_append_self _ _
  have d1 : ("- name: ".data ++ renderScalar v.Name).drop 8 =
      renderScalar v.Name := by
    rw [show (8 : Nat) = ("- name: ".data).length from rfl]
    exact List.drop_left _ _
  have d2 : ("  value: ".data ++ renderScalar v.Value).drop 9 =
      renderScalar v.Value := by
    rw [show (9 : Nat) = ("  value: ".data).length from rfl]
    exact List.drop_left _ _
  have d3 : ("  operation: ".data ++ renderScalar v.Operation).drop 13 =
      renderScalar v.Operation := by
    rw [show (13 : Nat) = ("  operation: ".data).length from rfl]
    exact List.drop_left _ _
  unfold parseEntry
  rw [h1, h2, h3]
  simp only [Bool.and_self, if_true]
  rw [d1, d2, d3, parseScalar_renderScalar, parseScalar_renderScalar,
    parseScalar_renderScalar]

/-- Parsing inverts rendering for a whole item list, stopping exactly at the
first non-item line that follows. -/
theorem parseItems_renderVars (vs : List Variable) (rest : List (List Char))
    (h : headNotItem rest) :
    parseItems (renderVars vs ++ rest) = some (vs, rest) := by
  induction vs with
  | nil =>
    show parseItems ([].flatMap renderVariable ++ rest) = some ([], rest)
    rw [List.flatMap_nil, List.nil_append]
    exact parseItems_noItem rest h
  | cons v vs ih =>
    show parseItems ((v :: vs).flatMap renderVariable ++ rest) = _
    rw [List.flatMap_cons]
    show parseItems ((renderVariable v ++ vs.flatMap renderVariable) ++ rest) = _
    rw [List.append_assoc]
    show parseItems
      (("- name: ".data ++ renderScalar v.Name) ::
        ("  value: ".data ++ renderScalar v.Value) ::
        ("  operation: ".data ++ renderScalar v.Operation) ::
        (vs.flatMap renderVariable ++ rest)) = _
    have h1 : isItemLine ("- name: ".data ++ renderScalar v.Name) = true :=
      isPrefixOf_append_self _ _
    rw [parseItems, if_pos h1, parseEntry_render]
    show (match (some v : Option Variable),
        parseItems (renderVars vs ++ rest) with
      | some v, some (vs, rem) => some (v :: vs, rem)
      | _, _ => none) = _
    rw [ih]

/-- Parsing inverts rendering for one top-level section. -/
theorem parseSection_renderSection (key : String) (vs : List Variable)
    (rest : List (List Char)) (h : headNotItem rest) :
    parseSection key (renderSection key vs ++ rest) = some (vs, rest) := by
  cases vs with
  | nil =>
    show parseSection key ((key.data ++ ": []".data) :: rest) = _
    rw [parseSection, if_pos rfl]
  | cons a l =>
    show parseSection key
      ((key.data ++ [':']) :: (renderVars (a :: l) ++ rest)) = _
    have hne : ¬ (key.data ++ [':'] = key.data ++ ": []".data) := by
      intro hcontra
      have h2 := List.append_cancel_left hcontra
      simp at h2
    rw [parseSection, if_neg hne, if_pos rfl]
    exact parseItems_renderVars (a :: l) rest h

/-- The head line of a rendered section is never an item line (for the keys
used here). -/
theorem headNotItem_renderSection_sys (svs : List Variable) :
    headNotItem (renderSection "system_variables" svs) := by
  cases svs with
  | nil =>
    show isItemLine ("system_variables".data ++ ": []".data) = false
    decide
  | cons a l =>
    show isItemLine ("system_variables".data ++ [':']) = false
    decide

/-- C4 helper: the serializer round trip, `Parse (Render c) = c`, for every
configuration (order, duplicates and unrecognized operation strings
included). -/
theorem yamlUnmarshal_yamlMarshal (c : Config) :
    yamlUnmarshal (yamlMarshal c) = some c := by
  unfold yamlUnmarshal
  rw [splitOn_yamlMarshal]
  show (match parseSection "user_variables"
      (renderSection "user_variables" c.UserVariables ++
        renderSection "system_variables" c.SystemVariables) with
    | none => none
    | some (uvs, rest) =>
      match parseSection "system_variables" rest with
      | none => none
      | some (svs, rest2) =>
        if rest2.isEmpty then some ⟨uvs, svs⟩ else none) = some c
  rw [parseSection_renderSection "user_variables" c.UserVariables
    (renderSection "system_variables" c.SystemVariables)
    (headNotItem_renderSection_sys c.SystemVariables)]
  show (match parseSection "system_variables"
      (renderSection "system_variables" c.SystemVariables) with
    | none => none
    | some (svs, rest2) =>
      if rest2.isEmpty then some ⟨c.UserVariables, svs⟩ else none) = some c
  rw [show renderSection "system_variables" c.SystemVariables =
      renderSection "system_variables" c.SystemVariables ++ [] from
    (List.append_nil _).symm]
  rw [parseSection_renderSection "system_variables" c.SystemVariables []
    True.intro]
  rfl

/-- C4: the serialize-then-deserialize round trip preserves every
configuration whose entries have the recognized fields: both lists, their
order, and each field value survive `Parse (Render c)`. -/
theorem claim_C4 (c : Config) : yamlUnmarshal (yamlMarshal c) = some c :=
  yamlUnmarshal_yamlMarshal c

/-- C5: an entry whose operation is neither "set" nor "delete" makes no
registry call, is recorded as unknown/skipped, never halts processing of the
remaining entries, and such operation strings survive parsing as plain data
(no parse failure). -/
theorem claim_C5 (o : RegOracle) (σ : Store) (v : Variable)
    (rest : List Variable)
    (hset : ¬ v.Operation = "set") (hdel : ¬ v.Operation = "delete") :
    applyStep o σ v = (σ, .unknownSkipped, []) ∧
    applyLoop o σ (v :: rest) =
      ((applyLoop o σ rest).1, .unknownSkipped :: (applyLoop o σ rest).2.1,
        (applyLoop o σ rest).2.2) ∧
    (∀ c : Config, yamlUnmarshal (yamlMarshal c) = some c) := by
  have hstep : applyStep o σ v = (σ, .unknownSkipped, []) := by
    simp [applyStep, hset, hdel]
  refine ⟨hstep, ?_, fun c => yamlUnmarshal_yamlMarshal c⟩
  show ((applyLoop o (applyStep o σ v).1 rest).1,
      (applyStep o σ v).2.1 :: (applyLoop o (applyStep o σ v).1 rest).2.1,
      (applyStep o σ v).2.2 ++ (applyLoop o (applyStep o σ v).1 rest).2.2) = _
  rw [hstep]
  rfl

/-- C5 witness: the operation "frobnicate" is skipped with no registry call
and survives a serializer round trip. -/
theorem claim_C5_witness :
    applyStep benignOracle emptyStore ⟨"X", "1", "frobnicate"⟩ =
      (emptyStore, .unknownSkipped, []) ∧
    yamlUnmarshal (yamlMarshal ⟨[⟨"X", "1", "frobnicate"⟩], []⟩) =
      some ⟨[⟨"X", "1", "frobnicate"⟩], []⟩ := by
  have h := claim_C5 benignOracle emptyStore ⟨"X", "1", "frobnicate"⟩
    [⟨"FOO", "1", "set"⟩] (by decide) (by decide)
  exact ⟨h.1, h.2.2 ⟨[⟨"X", "1", "frobnicate"⟩], []⟩⟩

/-! ## Extension-check lemmas (C6, C10) -/

/-- `Char.ofNat` at a valid code point has that code point as `toNat`. -/
theorem toNat_charOfNat (n : Nat) (h : n.isValidChar) :
    (Char.ofNat n).toNat = n := by
  rw [Char.ofNat, dif_pos h]
  rfl

/-- `toLowerChar` on code points. -/
theorem toLowerChar_toNat (c : Char) :
    (toLowerChar c).toNat =
      if 65 ≤ c.toNat ∧ c.toNat ≤ 90 then c.toNat + 32 else c.toNat := by
  unfold toLowerChar
  by_cases h : 65 ≤ c.toNat ∧ c.toNat ≤ 90
  · rw [if_pos h, if_pos h, toNat_charOfNat]
    exact Or.inl (by omega)
  · rw [if_neg h, if_neg h]

/-- Characters with equal code points are equal. -/
theorem charEq_of_toNat_eq {c d : Char} (h : c.toNat = d.toNat) : c = d :=
  Char.ext (UInt32.toNat.inj h)

/-- What a character can be, given its lowercase form. -/
theorem of_toLowerChar_eq {c d : Char} (hd : toLowerChar c = d) :
    c.toNat = d.toNat ∨
      (c.toNat + 32 = d.toNat ∧ 65 ≤ c.toNat ∧ c.toNat ≤ 90) := by
  have h2 := congrArg Char.toNat hd
  rw [toLowerChar_toNat] at h2
  by_cases h : 65 ≤ c.toNat ∧ c.toNat ≤ 90
  · rw [if_pos h] at h2
    exact Or.inr ⟨h2, h⟩
  · rw [if_neg h] at h2
    exact Or.inl h2

/-- Only the dot lowers to a dot. -/
theorem eq_dot_of_toLowerChar {c : Char} (h : toLowerChar c = '.') :
    c = '.' := by
  rcases of_toLowerChar_eq h with h2 | ⟨h2, h3, h4⟩
  · exact charEq_of_toNat_eq h2
  · have hd : ('.' : Char).toNat = 46 := rfl
    exact absurd h2 (by omega)

/-- A character lowering to a lowercase letter is neither a separator nor a
dot. -/
theorem notSep_of_toLowerChar_letter {c x : Char} (hx : toLowerChar c = x)
    (hlow : 97 ≤ x.toNat ∧ x.toNat ≤ 122) :
    isPathSep c = false ∧ ¬ c = '.' := by
  have hrange : (97 ≤ c.toNat ∧ c.toNat ≤ 122) ∨
      (65 ≤ c.toNat ∧ c.toNat ≤ 90) := by
    rcases of_toLowerChar_eq hx with h2 | ⟨h2, h3, h4⟩
    · exact Or.inl (by omega)
    · exact Or.inr ⟨h3, h4⟩
  constructor
  · have h1 : ¬ c = '\\' := by
      intro h
      subst h
      revert hrange
      decide
    have h2 : ¬ c = '/' := by
      intro h
      subst h
      revert hrange
      decide
    simp [isPathSep, h1, h2]
  · intro h
    subst h
    revert hrange
    decide

/-- `extRev` returns a prefix of its input. -/
theorem extRevPrefix (l : List Char) : extRev l <+: l := by
  induction l with
  | nil => exact List.nil_prefix
  | cons c rest ih =>
    unfold extRev
    by_cases hsep : isPathSep c = true
    · rw [if_pos hsep]
      exact List.nil_prefix
    · rw [if_neg hsep]
      by_cases hdot : c = '.'
      · rw [if_pos hdot]
        exact ⟨rest, rfl⟩
      · rw [if_neg hdot]
        by_cases hnil : extRev rest = []
        · rw [if_pos hnil]
          exact List.nil_prefix
        · rw [if_neg hnil]
          exact List.cons_prefix_cons.mpr ⟨rfl, ih⟩

/-- Modelled from the spec's words: the path ends in a case-insensitive
".yaml" or ".yml" suffix (lowercasing with `toLowerChar`). -/
def endsWithYamlCI (p : String) : Prop :=
  ".yaml".data <:+ p.data.map toLowerChar ∨
    ".yml".data <:+ p.data.map toLowerChar

/-- The extension check accepts only case-insensitive yaml/yml suffixes. -/
theorem isValid_imp_suffix (p : String) (h : isValidYAMLFile p = true) :
    endsWithYamlCI p := by
  unfold isValidYAMLFile lowerStr filepathExt at h
  simp only [Bool.or_eq_true, decide_eq_true_eq] at h
  have hpre : (extRev p.data.reverse).reverse <:+ p.data := by
    have h1 := extRevPrefix p.data.reverse
    have h2 : ((extRev p.data.reverse).reverse).reverse <+: p.data.reverse := by
      rw [List.reverse_reverse]
      exact h1
    exact List.reverse_prefix.mp h2
  have hmap := List.IsSuffix.map toLowerChar hpre
  rcases h with h | h
  · have hdata : ((extRev p.data.reverse).reverse).map toLowerChar =
        ".yaml".data := congrArg String.data h
    exact Or.inl (hdata ▸ hmap)
  · have hdata : ((extRev p.data.reverse).reverse).map toLowerChar =
        ".yml".data := congrArg String.data h
    exact Or.inr (hdata ▸ hmap)

/-- A path whose lowercase form ends in ".yaml" passes the extension
check. -/
theorem isValid_of_yaml_suffix (p : String)
    (h : ".yaml".data <:+ p.data.map toLowerChar) :
    isValidYAMLFile p = true := by
  rcases h with ⟨t, ht⟩
  have hsplit := List.map_eq_append_iff.mp ht.symm
  rcases hsplit with ⟨q, r, hpq, hq, hr⟩
  cases r with
  | nil => simp at hr
  | cons c1 r1 =>
  cases r1 with
  | nil => simp at hr
  | cons c2 r2 =>
  cases r2 with
  | nil => simp at hr
  | cons c3 r3 =>
  cases r3 with
  | nil => simp at hr
  | cons c4 r4 =>
  cases r4 with
  | nil => simp at hr
  | cons c5 r5 =>
  cases r5 with
  | cons c6 r6 => simp at hr
  | nil =>
  simp only [List.map_cons, List.map_nil, List.cons.injEq, and_true] at hr
  obtain ⟨h1, h2, h3, h4, h5⟩ := hr
  have hc1 : c1 = '.' := eq_dot_of_toLowerChar h1
  subst hc1
  have f2 := notSep_of_toLowerChar_letter h2 (by decide)
  have f3 := notSep_of_toLowerChar_letter h3 (by decide)
  have f4 := notSep_of_toLowerChar_letter h4 (by decide)
  have f5 := notSep_of_toLowerChar_letter h5 (by decide)
  have hrev : p.data.reverse =
      c5 :: c4 :: c3 :: c2 :: '.' :: q.reverse := by
    rw [hpq, List.reverse_append]
    simp
  have e1 : extRev ('.' :: q.reverse) = ['.'] := by
    unfold extRev
    have hps : ¬ isPathSep '.' = true := by decide
    rw [if_neg hps, if_pos rfl]
  have e2 : extRev (c2 :: '.' :: q.reverse) = [c2, '.'] := by
    unfold extRev
    rw [if_neg (by rw [f2.1]; exact Bool.false_ne_true), if_neg f2.2, e1,
      if_neg (by exact List.cons_ne_nil '.' [])]
  have e3 : extRev (c3 :: c2 :: '.' :: q.reverse) = [c3, c2, '.'] := by
    unfold extRev
    rw [if_neg (by rw [f3.1]; exact Bool.false_ne_true), if_neg f3.2, e2,
      if_neg (by exact List.cons_ne_nil c2 ['.'])]
  have e4 : extRev (c4 :: c3 :: c2 :: '.' :: q.reverse) =
      [c4, c3, c2, '.'] := by
    unfold extRev
    rw [if_neg (by rw [f4.1]; exact Bool.false_ne_true), if_neg f4.2, e3,
      if_neg (by exact List.cons_ne_nil c3 [c2, '.'])]
  have e5 : extRev (c5 :: c4 :: c3 :: c2 :: '.' :: q.reverse) =
      [c5, c4, c3, c2, '.'] := by
    unfold extRev
    rw [if_neg (by rw [f5.1]; exact Bool.false_ne_true), if_neg f5.2, e4,
      if_neg (by exact List.cons_ne_nil c4 [c3, c2, '.'])]
  unfold isValidYAMLFile filepathExt lowerStr
  rw [hrev, e5]
  have hdotlow : toLowerChar '.' = '.' := by decide
  have hfinal :
      (⟨List.map toLowerChar
        (⟨[c5, c4, c3, c2, '.'].reverse⟩ : String).data⟩ : String) =
        ".yaml" := by
    apply String.ext
    show ([c5, c4, c3, c2, '.'].reverse).map toLowerChar = ".yaml".data
    simp only [List.reverse_cons, List.reverse_nil, List.nil_append,
      List.cons_append, List.map_cons, List.map_nil, hdotlow, h2, h3, h4, h5]
  exact decide_eq_true (Or.inl hfinal)

/-- A path whose lowercase form ends in ".yml" passes the extension check. -/
theorem isValid_of_yml_suffix (p : String)
    (h : ".yml".data <:+ p.data.map toLowerChar) :
    isValidYAMLFile p = true := by
  rcases h with ⟨t, ht⟩
  have hsplit := List.map_eq_append_iff.mp ht.symm
  rcases hsplit with ⟨q, r, hpq, hq, hr⟩
  cases r with
  | nil => simp at hr
  | cons c1 r1 =>
  cases r1 with
  | nil => simp at hr
  | cons c2 r2 =>
  cases r2 with
  | nil => simp at hr
  | cons c3 r3 =>
  cases r3 with
  | nil => simp at hr
  | cons c4 r4 =>
  cases r4 with
  | cons c5 r5 => simp at hr
  | nil =>
  simp only [List.map_cons, List.map_nil, List.cons.injEq, and_true] at hr
  obtain ⟨h1, h2, h3, h4⟩ := hr
  have hc1 : c1 = '.' := eq_dot_of_toLowerChar h1
  subst hc1
  have f2 := notSep_of_toLowerChar_letter h2 (by decide)
  have f3 := notSep_of_toLowerChar_letter h3 (by decide)
  have f4 := notSep_of_toLowerChar_letter h4 (by decide)
  have hrev : p.data.reverse = c4 :: c3 :: c2 :: '.' :: q.reverse := by
    rw [hpq, List.reverse_append]
    simp
  have e1 : extRev ('.' :: q.reverse) = ['.'] := by
    unfold extRev
    have hps : ¬ isPathSep '.' = true := by decide
    rw [if_neg hps, if_pos rfl]
  have e2 : extRev (c2 :: '.' :: q.reverse) = [c2, '.'] := by
    unfold extRev
    rw [if_neg (by rw [f2.1]; exact Bool.false_ne_true), if_neg f2.2, e1,
      if_neg (by exact List.cons_ne_nil '.' [])]
  have e3 : extRev (c3 :: c2 :: '.' :: q.reverse) = [c3, c2, '.'] := by
    unfold extRev
    rw [if_neg (by rw [f3.1]; exact Bool.false_ne_true), if_neg f3.2, e2,
      if_neg (by exact List.cons_ne_nil c2 ['.'])]
  have e4 : extRev (c4 :: c3 :: c2 :: '.' :: q.reverse) =
      [c4, c3, c2, '.'] := by
    unfold extRev
    rw [if_neg (by rw [f4.1]; exact Bool.false_ne_true), if_neg f4.2, e3,
      if_neg (by exact List.cons_ne_nil c3 [c2, '.'])]
  unfold isValidYAMLFile filepathExt lowerStr
  rw [hrev, e4]
  have hdotlow : toLowerChar '.' = '.' := by decide
  have hfinal :
      (⟨List.map toLowerChar
        (⟨[c4, c3, c2, '.'].reverse⟩ : String).data⟩ : String) =
        ".yml" := by
    apply String.ext
    show ([c4, c3, c2, '.'].reverse).map toLowerChar = ".yml".data
    simp only [List.reverse_cons, List.reverse_nil, List.nil_append,
      List.cons_append, List.map_cons, List.map_nil, hdotlow, h2, h3, h4]
  exact decide_eq_true (Or.inr hfinal)

/-- The extension check is exactly the case-insensitive-suffix condition. -/
theorem isValid_iff_suffix (p : String) :
    isValidYAMLFile p = true ↔ endsWithYamlCI p := by
  constructor
  · exact isValid_imp_suffix p
  · intro h
    rcases h with h | h
    · exact isValid_of_yaml_suffix p h
    · exact isValid_of_yml_suffix p h

/-- C6: `isValidYAMLFile` accepts a path exactly when it ends in a
case-insensitive ".yaml" or ".yml" suffix, and an invalid path makes the
apply run fail with the unsupported-file-type error before any file read is
attempted. -/
theorem claim_C6 (p : String) :
    (isValidYAMLFile p = true ↔ endsWithYamlCI p) ∧
    (∀ (env : Env) (σu σs : Store), ¬ p = "" → isValidYAMLFile p = false →
      (applyEnvVars p env σu σs).fileReadAttempted = false ∧
      (applyEnvVars p env σu σs).err = some .unsupportedFileType) := by
  constructor
  · exact isValid_iff_suffix p
  · intro env σu σs hpath hvalid
    constructor <;> simp [applyEnvVars, hpath, hvalid]

/-- C6 witness: "cfg.YML" is accepted; "cfg.txt" is rejected and its run
attempts no file read. -/
theorem claim_C6_witness :
    isValidYAMLFile "cfg.YML" = true ∧
    ((applyEnvVars "cfg.txt"
        ⟨false, false, false, ⟨[], []⟩, false, false, benignOracle, false⟩
        emptyStore emptyStore).fileReadAttempted = false ∧
      (applyEnvVars "cfg.txt"
        ⟨false, false, false, ⟨[], []⟩, false, false, benignOracle, false⟩
        emptyStore emptyStore).err = some .unsupportedFileType) := by
  refine ⟨((claim_C6 "cfg.YML").1).mpr (Or.inr (by decide)), ?_⟩
  exact (claim_C6 "cfg.txt").2
    ⟨false, false, false, ⟨[], []⟩, false, false, benignOracle, false⟩
    emptyStore emptyStore (by decide) (by decide)

/-- Everything an `.ok` result of `readVariablesFromRegistry` contains has
operation "set". -/
theorem readVariables_ok_all_set (hive : Hive) (subkeyPath : String)
    (openFails namesFail : Bool) (names : List String)
    (getVal : String → Option String) (vs : List Variable)
    (h : readVariablesFromRegistry hive subkeyPath openFails namesFail names
      getVal = .ok vs) :
    ∀ v ∈ vs, v.Operation = "set" := by
  unfold readVariablesFromRegistry at h
  by_cases ho : openFails = true
  · rw [if_pos ho] at h
    exact absurd h (by simp)
  · rw [if_neg ho] at h
    by_cases hn : namesFail = true
    · rw [if_pos hn] at h
      exact absurd h (by simp)
    · rw [if_neg hn] at h
      have hvs : vs =
          names.filterMap (fun n => (getVal n).map fun v => ⟨n, v, "set"⟩) := by
        injection h with h2
        exact h2.symm
      subst hvs
      intro v hv
      rcases List.mem_filterMap.mp hv with ⟨n, _, hfn⟩
      rcases Option.map_eq_some'.mp hfn with ⟨val, _, hval⟩
      rw [← hval]

/-- C9: every variable in an exported configuration has operation "set",
whatever the store contents and privilege level. -/
theorem claim_C9 (isAdmin : Bool) (e : ExportEnv) (c : Config)
    (h : exportEnvironmentVariables isAdmin e = .ok c) :
    ∀ v : Variable, (v ∈ c.UserVariables ∨ v ∈ c.SystemVariables) →
      v.Operation = "set" := by
  unfold exportEnvironmentVariables at h
  cases hu : readVariablesFromRegistry .currentUser userSubkey e.userOpenFails
      e.userNamesFail e.userNames e.userGet with
  | error msg =>
    rw [hu] at h
    exact absurd h (by simp)
  | ok uvs =>
    rw [hu] at h
    cases isAdmin with
    | true =>
      cases hs : readVariablesFromRegistry .localMachine sysSubkey
          e.sysOpenFails e.sysNamesFail e.sysNames e.sysGet with
      | error msg =>
        rw [hs] at h
        exact absurd h (by simp)
      | ok svs =>
        rw [hs] at h
        have h3 : (Except.ok (⟨uvs, svs⟩ : Config) : Except String Config) =
            Except.ok c := h
        have hc : c = ⟨uvs, svs⟩ := by
          injection h3 with h2
          exact h2.symm
        subst hc
        intro v hv
        rcases hv with hv | hv
        · exact readVariables_ok_all_set _ _ _ _ _ _ _ hu v hv
        · exact readVariables_ok_all_set _ _ _ _ _ _ _ hs v hv
    | false =>
      have h3 : (Except.ok (⟨uvs, []⟩ : Config) : Except String Config) =
          Except.ok c := h
      have hc : c = ⟨uvs, []⟩ := by
        injection h3 with h2
        exact h2.symm
      subst hc
      intro v hv
      rcases hv with hv | hv
      · exact readVariables_ok_all_set _ _ _ _ _ _ _ hu v hv
      · exact absurd hv (List.not_mem_nil v)

/-- C9 witness: a concrete elevated export of one user and one system value
yields only "set" operations. -/
theorem claim_C9_witness :
    (⟨"A", "1", "set"⟩ : Variable).Operation = "set" :=
  claim_C9 true
    ⟨false, false, ["A"], fun _ => some "1", false, false, ["B"],
      fun _ => some "2"⟩
    ⟨[⟨"A", "1", "set"⟩], [⟨"B", "2", "set"⟩]⟩ rfl
    ⟨"A", "1", "set"⟩ (Or.inl (by decide))

/-- C10: when the chosen save path lacks a case-insensitive ".yaml"/".yml"
suffix, the literal ".yaml" is appended; either way the final path passes the
extension check. -/
theorem claim_C10 (p : String) :
    (strHasSuffix (lowerStr p) ".yaml" = false →
      strHasSuffix (lowerStr p) ".yml" = false →
      fixupSavePath p = p ++ ".yaml") ∧
    isValidYAMLFile (fixupSavePath p) = true := by
  constructor
  · intro h1 h2
    unfold fixupSavePath
    rw [h1, h2]
    rfl
  · unfold fixupSavePath
    by_cases h1 : strHasSuffix (lowerStr p) ".yaml" = true
    · rw [if_neg (by simp [h1])]
      apply isValid_of_yaml_suffix
      have h2 : ".yaml".data <:+ (lowerStr p).data :=
        List.isSuffixOf_iff_suffix.mp h1
      exact h2
    · by_cases h2 : strHasSuffix (lowerStr p) ".yml" = true
      · rw [if_neg (by simp [h2])]
        apply isValid_of_yml_suffix
        have h3 : ".yml".data <:+ (lowerStr p).data :=
          List.isSuffixOf_iff_suffix.mp h2
        exact h3
      · rw [if_pos (by simp [h1, h2])]
        apply isValid_of_yaml_suffix
        refine ⟨p.data.map toLowerChar, ?_⟩
        have hm : (".yaml".data).map toLowerChar = ".yaml".data := by decide
        show p.data.map toLowerChar ++ ".yaml".data =
          (p.data ++ ".yaml".data).map toLowerChar
        rw [List.map_append, hm]

/-- C10 witness: "cfg" gains the ".yaml" suffix; an already-suffixed path is
kept and stays recognized. -/
theorem claim_C10_witness :
    fixupSavePath "cfg" = "cfg" ++ ".yaml" ∧
    isValidYAMLFile (fixupSavePath "export.YML") = true :=
  ⟨(claim_C10 "cfg").1 rfl rfl, (claim_C10 "export.YML").2⟩

end SVM
